import Mathlib

/-!
Verification of the WAD archive library (obsidian-smoosh): a shallow
embedding of `src/wad/src/lib.rs` and `src/wad/src/wad_de.rs` in Lean 4.

Bytes are modelled as `Nat` (real bytes are `< 256`; decoders normalise with
`% 256` exactly where the Rust types force byte width).  A seekable byte
source is a `List Nat` together with explicit positions; `readBytes` models
`Read::read_exact` after a `Seek::seek(SeekFrom::Start _)` (which never fails
for in-memory sources or files).  Fallible Rust code returns `Except`;
code that can additionally panic (`unwrap`, `vec![0; n]` capacity overflow)
returns `Outcome`, which has an explicit `panicked` result.
Rust `String`s are represented by their UTF-8 byte lists.
-/

namespace Smoosh

/-- Underlying `std::io::Error` kinds that arise in the pure byte-source
model: `read_exact` hitting end of input, and `write_all` to a full
fixed-size cursor. -/
inductive IOErr
  | unexpectedEof
  | writeZero
deriving DecidableEq

/-- `WadError` from `lib.rs` (the `InvalidMagicNumber` payload is the 4 raw
bytes; `InvalidLumpName` carries the byte sequence that failed
`String::from_utf8`). -/
inductive WadError
  | CouldntReadHeader (e : IOErr)
  | CouldntWriteHeader (e : IOErr)
  | CouldntReadEntry (e : IOErr)
  | CouldntWriteEntry (e : IOErr)
  | CouldntReadLump (e : IOErr)
  | CouldntWriteLump (e : IOErr)
  | InvalidMagicNumber (bytes : List Nat)
  | InvalidLumpName (bytes : List Nat)
  | TrailingBytes
  | UnexpectedEof
  | Other (msg : String)
deriving DecidableEq

/-- Result of running a piece of Rust code that may return `Ok`, return a
`WadError`, or panic (e.g. `unwrap()` on `None`, `vec![0; n]` capacity
overflow). -/
inductive Outcome (α : Type)
  | ok (a : α)
  | error (e : WadError)
  | panicked
deriving DecidableEq

instance {ε α : Type} [DecidableEq ε] [DecidableEq α] :
    DecidableEq (Except ε α) := fun x y =>
  match x, y with
  | .ok a, .ok b =>
    if h : a = b then isTrue (by rw [h]) else isFalse (by simp [h])
  | .error a, .error b =>
    if h : a = b then isTrue (by rw [h]) else isFalse (by simp [h])
  | .ok _, .error _ => isFalse (by simp)
  | .error _, .ok _ => isFalse (by simp)

/-- True little-endian value of a byte list, least significant byte first.
This is what `byteorder::LittleEndian` reads compute. -/
def leDecode : List Nat → Nat
  | [] => 0
  | b :: rest => b % 256 + 256 * leDecode rest

/-- Reinterpret a `bits`-wide unsigned bit pattern as a two's-complement
signed value. -/
def toSigned (bits : Nat) (v : Nat) : Int :=
  if v % 2 ^ bits < 2 ^ (bits - 1) then ((v % 2 ^ bits : Nat) : Int)
  else ((v % 2 ^ bits : Nat) : Int) - ((2 ^ bits : Nat) : Int)

/-- `i32` interpretation of a 32-bit pattern (what `read_i32::<LittleEndian>`
returns for the pattern `v`). -/
def toI32 (v : Nat) : Int := toSigned 32 v

/-- `write_i32::<LittleEndian>`: the 4 bytes emitted for an `i32` value. -/
def le32 (x : Int) : List Nat :=
  [(x % 4294967296).toNat % 256,
   (x % 4294967296).toNat / 256 % 256,
   (x % 4294967296).toNat / 65536 % 256,
   (x % 4294967296).toNat / 16777216 % 256]

/-- Rust `as` cast from `i32` to `u64`/`usize` (sign-extend, then
reinterpret: `-1i32 as u64 = 2^64 - 1`). -/
def i32AsU64 (x : Int) : Nat := (x % 18446744073709551616).toNat

/-- Rust `usize::try_into::<i32>()`: succeeds exactly when the value fits in
an `i32`. -/
def usizeToI32 (n : Nat) : Option Int :=
  if n ≤ 2147483647 then some (Int.ofNat n) else none

/-- Rust `usize as i32` wrapping cast (used for `lump.data.len() as i32` and
`directory.0.len() as i32`). -/
def usizeAsI32 (n : Nat) : Int := toI32 n

/-- `seek(SeekFrom::Start pos)` followed by `read_exact` of `n` bytes from
the source `s`: fails (with io `UnexpectedEof`) when fewer than `n` bytes
lie at or after `pos`. -/
def readBytes (s : List Nat) (pos n : Nat) : Option (List Nat) :=
  if pos + n ≤ s.length then some ((s.drop pos).take n) else none

/-- UTF-8 validity of a byte sequence, exactly the check done by
`String::from_utf8` (RFC 3629: no overlong encodings, no surrogate code
points, maximum scalar value U+10FFFF). -/
def isValidUtf8 : List Nat → Bool
  | [] => true
  | b :: rest =>
    if b ≤ 0x7F then isValidUtf8 rest
    else if 0xC2 ≤ b ∧ b ≤ 0xDF then
      match rest with
      | c1 :: rest2 => decide (0x80 ≤ c1 ∧ c1 ≤ 0xBF) && isValidUtf8 rest2
      | [] => false
    else if 0xE0 ≤ b ∧ b ≤ 0xEF then
      match rest with
      | c1 :: c2 :: rest2 =>
        (if b = 0xE0 then decide (0xA0 ≤ c1 ∧ c1 ≤ 0xBF)
         else if b = 0xED then decide (0x80 ≤ c1 ∧ c1 ≤ 0x9F)
         else decide (0x80 ≤ c1 ∧ c1 ≤ 0xBF)) &&
        decide (0x80 ≤ c2 ∧ c2 ≤ 0xBF) && isValidUtf8 rest2
      | _ => false
    else if 0xF0 ≤ b ∧ b ≤ 0xF4 then
      match rest with
      | c1 :: c2 :: c3 :: rest2 =>
        (if b = 0xF0 then decide (0x90 ≤ c1 ∧ c1 ≤ 0xBF)
         else if b = 0xF4 then decide (0x80 ≤ c1 ∧ c1 ≤ 0x8F)
         else decide (0x80 ≤ c1 ∧ c1 ≤ 0xBF)) &&
        decide (0x80 ≤ c2 ∧ c2 ≤ 0xBF) && decide (0x80 ≤ c3 ∧ c3 ≤ 0xBF) &&
        isValidUtf8 rest2
      | _ => false
    else false

/-! ## `wad_de.rs`: the serde byte-cursor deserializer

The deserializer owns a shrinking input slice; primitives consume from the
front.  State is the remaining input `List Nat`. -/

/-- `WadDeserializer::next_byte` (via `peek_byte`): take the first remaining
byte or fail with `UnexpectedEof`. -/
def nextByte : List Nat → Except WadError (Nat × List Nat)
  | [] => .error .UnexpectedEof
  | b :: rest => .ok (b, rest)

/-- The loop body of `parse_unsigned` for a `bits`-wide target, running the
remaining iteration count, accumulator and shift.  Rust parses
`result = result + T::from(b).unwrap() << shift` as
`(result + b) << shift` (shift binds looser than addition), wrapping at the
target width, which is what is modelled here. -/
def parseUnsignedGo (bits : Nat) :
    Nat → Nat → Nat → List Nat → Except WadError (Nat × List Nat)
  | 0, result, _s, input => .ok (result, input)
  | m + 1, result, shift, input =>
    match nextByte input with
    | .error e => .error e
    | .ok (b, rest) =>
      parseUnsignedGo bits m ((result + b % 256) * 2 ^ shift % 2 ^ bits)
        (shift + 8) rest

/-- `WadDeserializer::parse_unsigned` for an unsigned target of `k` bytes
(`k = size_of::<T>()`), returning the value and the remaining input. -/
def parse_unsigned (k : Nat) (input : List Nat) :
    Except WadError (Nat × List Nat) :=
  parseUnsignedGo (8 * k) k 0 0 input

/-- The loop body of `parse_signed`: same accumulation on the bit pattern as
`parse_unsigned`, except that `T::from(b).unwrap()` panics when the byte
does not fit the signed target (possible only for `i8`). -/
def parseSignedGo (bits : Nat) :
    Nat → Nat → Nat → List Nat → Outcome (Nat × List Nat)
  | 0, result, _s, input => .ok (result, input)
  | m + 1, result, shift, input =>
    match nextByte input with
    | .error e => .error e
    | .ok (b, rest) =>
      if 2 ^ (bits - 1) ≤ b % 256 then .panicked
      else
        parseSignedGo bits m ((result + b % 256) * 2 ^ shift % 2 ^ bits)
          (shift + 8) rest

/-- `WadDeserializer::parse_signed` for a signed target of `k` bytes,
returning the two's-complement value of the accumulated pattern. -/
def parse_signed (k : Nat) (input : List Nat) : Outcome (Int × List Nat) :=
  match parseSignedGo (8 * k) k 0 0 input with
  | .ok (v, rest) => .ok (toSigned (8 * k) v, rest)
  | .error e => .error e
  | .panicked => .panicked

/-- `wad_de::from_bytes`: run a record decode `d` (the record's field decodes
in declaration order, each a composition of cursor primitives), then require
the input to be fully consumed, failing with `TrailingBytes` otherwise. -/
def from_bytes {α : Type} (d : List Nat → Except WadError (α × List Nat))
    (s : List Nat) : Except WadError α :=
  match d s with
  | .error e => .error e
  | .ok (t, rest) => if rest.isEmpty then .ok t else .error .TrailingBytes

/-- A concrete record shape made of two `u32` fields decoded through
`parse_unsigned`, in field order. -/
def twoU32 (input : List Nat) : Except WadError ((Nat × Nat) × List Nat) :=
  match parse_unsigned 4 input with
  | .error e => .error e
  | .ok (a, rest) =>
    match parse_unsigned 4 rest with
    | .error e => .error e
    | .ok (b, rest2) => .ok ((a, b), rest2)

/-! ## `lib.rs`: header, directory, lumps, archive -/

/-- The 4 magic bytes "IWAD". -/
def magicIWAD : List Nat := [73, 87, 65, 68]

/-- The 4 magic bytes "PWAD". -/
def magicPWAD : List Nat := [80, 87, 65, 68]

/-- `WadHeader` from `lib.rs`. -/
structure WadHeader where
  num_lumps : Int
  directory_offset : Int
deriving DecidableEq

/-- `WadHeader::new`: read 4 magic bytes at the start of the source, require
"IWAD" or "PWAD", then read `num_lumps` and `directory_offset` as
little-endian `i32`s, in that order.  Read failures are wrapped in
`CouldntReadHeader`. -/
def WadHeader.new (s : List Nat) : Except WadError WadHeader :=
  match readBytes s 0 4 with
  | none => .error (.CouldntReadHeader .unexpectedEof)
  | some magic =>
    if magic = magicIWAD ∨ magic = magicPWAD then
      match readBytes s 4 4 with
      | none => .error (.CouldntReadHeader .unexpectedEof)
      | some nb =>
        match readBytes s 8 4 with
        | none => .error (.CouldntReadHeader .unexpectedEof)
        | some db => .ok ⟨toI32 (leDecode nb), toI32 (leDecode db)⟩
    else .error (.InvalidMagicNumber magic)

/-- `DirectoryEntry` from `lib.rs`; `name` is the UTF-8 byte list of the
Rust `String`. -/
structure DirectoryEntry where
  offset : Int
  size : Int
  name : List Nat
deriving DecidableEq

/-- `DirectoryEntry::new` reading at position `pos` of source `s`: decode
`offset` (i32), `size` (i32), then 8 raw name bytes; remove every NUL byte
(`filter(|c| *c != b'\0')`) and require the remainder to be valid UTF-8,
failing with `InvalidLumpName` otherwise.  Read failures are wrapped in
`CouldntReadEntry`. -/
def DirectoryEntry.new (s : List Nat) (pos : Nat) :
    Except WadError DirectoryEntry :=
  match readBytes s pos 4 with
  | none => .error (.CouldntReadEntry .unexpectedEof)
  | some ob =>
    match readBytes s (pos + 4) 4 with
    | none => .error (.CouldntReadEntry .unexpectedEof)
    | some sb =>
      match readBytes s (pos + 8) 8 with
      | none => .error (.CouldntReadEntry .unexpectedEof)
      | some nb =>
        if isValidUtf8 (nb.filter (fun b => b != 0)) then
          .ok ⟨toI32 (leDecode ob), toI32 (leDecode sb),
               nb.filter (fun b => b != 0)⟩
        else .error (.InvalidLumpName (nb.filter (fun b => b != 0)))

/-- `DirectoryEntry::write`: emit `offset` and `size` as little-endian
`i32`s, then the name bytes written into a fixed `[0u8; 8]` cursor (so the
field is NUL-padded to 8 bytes); a name longer than 8 bytes makes the
cursor's `write_all` fail with a `WriteZero` io error, wrapped in
`CouldntWriteEntry`. -/
def DirectoryEntry.write (e : DirectoryEntry) : Except WadError (List Nat) :=
  if 8 < e.name.length then .error (.CouldntWriteEntry .writeZero)
  else .ok (le32 e.offset ++ le32 e.size ++
            (e.name ++ List.replicate (8 - e.name.length) 0))

/-- `Lump` from `lib.rs`; `name` is the UTF-8 byte list of the `String`. -/
structure Lump where
  name : List Nat
  data : List Nat
deriving DecidableEq

/-- `Lump::new`: allocate `vec![0; entry.size as usize]` — which PANICS with
a capacity overflow when the cast size exceeds `isize::MAX` (in particular
for every negative `entry.size`) — then seek to `entry.offset as u64` and
`read_exact` that many bytes, wrapping read failures in
`CouldntReadLump`. -/
def Lump.new (s : List Nat) (entry : DirectoryEntry) : Outcome Lump :=
  if 9223372036854775807 < i32AsU64 entry.size then .panicked
  else
    match readBytes s (i32AsU64 entry.offset) (i32AsU64 entry.size) with
    | none => .error (.CouldntReadLump .unexpectedEof)
    | some bytes => .ok ⟨entry.name, bytes⟩

/-- `Lump::write`: emit the raw data bytes. -/
def Lump.write (l : Lump) : List Nat := l.data

/-- The directory-parsing loop of `Wad::new`: after the single seek to the
directory offset, decode `count` 16-byte entries back to back, aborting on
the first failure. -/
def parseEntries (s : List Nat) (pos : Nat) :
    Nat → Except WadError (List DirectoryEntry)
  | 0 => .ok []
  | count + 1 =>
    match DirectoryEntry.new s pos with
    | .error e => .error e
    | .ok entry =>
      match parseEntries s (pos + 16) count with
      | .error e => .error e
      | .ok rest => .ok (entry :: rest)

/-- The lump-materialisation loop of `Wad::new`: one `Lump::new` per
directory entry, in order, aborting on the first failure (or panic). -/
def readLumps (s : List Nat) : List DirectoryEntry → Outcome (List Lump)
  | [] => .ok []
  | e :: rest =>
    match Lump.new s e with
    | .panicked => .panicked
    | .error err => .error err
    | .ok l =>
      match readLumps s rest with
      | .panicked => .panicked
      | .error err => .error err
      | .ok ls => .ok (l :: ls)

/-- The `lump_index` insertion loop of `Wad::new`:
`lump_index.insert(entry.name.clone(), lumps.len())` for each entry in
directory order, starting from position `i` and map `m`.  The `HashMap`
is modelled by its lookup function. -/
def buildIndexGo : List DirectoryEntry → Nat → (List Nat → Option Nat) →
    (List Nat → Option Nat)
  | [], _, m => m
  | e :: rest, i, m =>
    buildIndexGo rest (i + 1) (fun n => if n = e.name then some i else m n)

/-- The complete `lump_index` built by `Wad::new` from a directory. -/
def buildIndex (entries : List DirectoryEntry) : List Nat → Option Nat :=
  buildIndexGo entries 0 (fun _ => none)

/-- `Directory::iter`: iteration walks the full ordered entry list. -/
def Directory.iter (d : List DirectoryEntry) : List DirectoryEntry := d

/-- `Wad` from `lib.rs`: the ordered directory and the parallel ordered
lumps.  The `lump_index` field is fully determined by the directory
(`buildIndex directory`), so it is kept as a derived view rather than a
field (a function-valued field would not be comparable for equality). -/
structure Wad where
  directory : List DirectoryEntry
  lumps : List Lump
deriving DecidableEq

/-- The derived `lump_index` of an archive. -/
def Wad.lumpIndex (w : Wad) : List Nat → Option Nat := buildIndex w.directory

/-- `Wad::new` from the point where a plain seekable byte source is in hand
(path resolution and zip unwrapping are out of scope): parse the header,
seek to `directory_offset as u64` (a `SeekFrom::Start` seek never fails),
decode `num_lumps` entries (a non-positive `num_lumps` runs the loop zero
times), then materialise one lump per entry. -/
def Wad.openBytes (s : List Nat) : Outcome Wad :=
  match WadHeader.new s with
  | .error e => .error e
  | .ok header =>
    match parseEntries s (i32AsU64 header.directory_offset)
        header.num_lumps.toNat with
    | .error e => .error e
    | .ok directory =>
      match readLumps s directory with
      | .panicked => .panicked
      | .error e => .error e
      | .ok lumps => .ok ⟨directory, lumps⟩

/-- The directory-writing loop of `Wad::write`: for each lump, build a
`DirectoryEntry` with `offset.try_into().unwrap()` — a PANIC when the
running offset exceeds `i32::MAX` — and `size = data.len() as i32`, write
it, and advance the offset by the lump's length. -/
def writeEntries : List Lump → Nat → Outcome (List Nat)
  | [], _ => .ok []
  | lump :: rest, offset =>
    match usizeToI32 offset with
    | none => .panicked
    | some offI =>
      match DirectoryEntry.write ⟨offI, usizeAsI32 lump.data.length, lump.name⟩ with
      | .error e => .error e
      | .ok bytes =>
        match writeEntries rest (offset + lump.data.length) with
        | .panicked => .panicked
        | .error e => .error e
        | .ok more => .ok (bytes ++ more)

/-- `Wad::write` to an in-memory destination: emit the header (magic always
"PWAD", `num_lumps = directory.len() as i32`, `directory_offset = 12`),
then one directory record per lump with offsets running from
`12 + 16 * directory.len()`, then the lump payloads concatenated in
order. -/
def Wad.write (w : Wad) : Outcome (List Nat) :=
  match writeEntries w.lumps (12 + w.directory.length * 16) with
  | .panicked => .panicked
  | .error e => .error e
  | .ok entryBytes =>
    .ok (magicPWAD ++ le32 (usizeAsI32 w.directory.length) ++ le32 12 ++
         entryBytes ++ (w.lumps.map (fun l => l.data)).flatten)

/-! ## Concrete data used by witnesses and counterexamples -/

/-- Modelled from the spec: the name decoding step the spec describes —
strip only the TRAILING NUL bytes of the raw name field, keeping interior
ones (for comparison with the code, which removes every NUL byte). -/
def stripTrailingNulsSpec (bytes : List Nat) : List Nat :=
  (bytes.reverse.dropWhile (fun b => b == 0)).reverse

/-- The byte-exact directory table `Wad::write` emits on success: one
16-byte record per lump, `offset` accumulating from `off` by each preceding
lump's byte length, `size` the lump's byte length, the name NUL-padded to 8
bytes. -/
def expectedDirBytes : List Lump → Nat → List Nat
  | [], _ => []
  | l :: rest, off =>
    (le32 (Int.ofNat off) ++ le32 (Int.ofNat l.data.length) ++
     (l.name ++ List.replicate (8 - l.name.length) 0)) ++
    expectedDirBytes rest (off + l.data.length)

/-- A directory with the name "A" at positions 0 and 3. -/
def dup4 : List DirectoryEntry :=
  [⟨10, 1, [65]⟩, ⟨20, 2, [66]⟩, ⟨30, 3, [67]⟩, ⟨40, 4, [65]⟩]

/-- Three lumps of sizes 10, 0 and 7. -/
def lumps107 : List Lump :=
  [⟨[65], List.replicate 10 1⟩, ⟨[66], []⟩, ⟨[67], List.replicate 7 2⟩]

/-- An archive holding the three lumps of sizes 10, 0 and 7. -/
def wad107 : Wad :=
  ⟨[⟨0, 10, [65]⟩, ⟨10, 0, [66]⟩, ⟨10, 7, [67]⟩], lumps107⟩

/-- The byte stream `Wad::write` emits for `wad107`. -/
def out107 : List Nat :=
  magicPWAD ++ le32 3 ++ le32 12 ++ expectedDirBytes lumps107 60 ++
  (lumps107.map (fun l => l.data)).flatten

/-- An archive whose single lump has a 9-byte name. -/
def badNameWad : Wad :=
  ⟨[⟨0, 2, [66]⟩], [⟨[65, 65, 65, 65, 65, 65, 65, 65, 65], [1, 2]⟩]⟩

/-- Size (and total source length) of the overlapping-lump archive below. -/
def bigLen : Nat := 185372

/-- Number of directory entries of the overlapping-lump archive below. -/
def bigN : Nat := 11585

/-- The name "AAAAAAAA" (8 bytes, no NULs). -/
def bigName : List Nat := List.replicate 8 65

/-- One 16-byte directory record: offset 0, size `bigLen`, name
"AAAAAAAA". -/
def bigRec : List Nat := le32 0 ++ (le32 (Int.ofNat bigLen) ++ bigName)

/-- A valid 185372-byte archive whose `bigN` directory entries all describe
the whole source as their lump (lump ranges may overlap, so the total lump
bytes — `bigN * bigLen > i32::MAX` — vastly exceed the source length). -/
def bigSrc : List Nat :=
  magicPWAD ++ (le32 (Int.ofNat bigN) ++ (le32 12 ++
    (List.replicate bigN bigRec).flatten))

/-- The directory entry each record of `bigSrc` decodes to. -/
def bigEntry : DirectoryEntry := ⟨0, Int.ofNat bigLen, bigName⟩

/-- The lump each entry of `bigSrc` materialises to: the whole source. -/
def bigLump : Lump := ⟨bigName, bigSrc⟩

/-- The archive `Wad::new` produces from `bigSrc`. -/
def bigWad : Wad :=
  ⟨List.replicate bigN bigEntry, List.replicate bigN bigLump⟩

/-! ## Helper lemmas -/

theorem readBytes_pre (s : List Nat) (pos n : Nat) (pre t : List Nat)
    (hpos : pos ≤ s.length) (hdrop : s.drop pos = pre ++ t)
    (hn : pre.length = n) :
    readBytes s pos n = some pre := by
  have hlen := congrArg List.length hdrop
  rw [List.length_drop, List.length_append] at hlen
  unfold readBytes
  rw [if_pos (by omega), hdrop, List.take_left' hn]

/-- Reading one 16-byte directory record that sits at `pos`, split into its
offset, size and name fields. -/
theorem directoryEntry_new_split (s : List Nat) (pos : Nat)
    (ob sb nb t : List Nat) (hpos : pos ≤ s.length)
    (hdrop : s.drop pos = ob ++ (sb ++ (nb ++ t)))
    (h1 : ob.length = 4) (h2 : sb.length = 4) (h3 : nb.length = 8) :
    DirectoryEntry.new s pos =
      if isValidUtf8 (nb.filter (fun b => b != 0)) then
        .ok ⟨toI32 (leDecode ob), toI32 (leDecode sb),
             nb.filter (fun b => b != 0)⟩
      else .error (.InvalidLumpName (nb.filter (fun b => b != 0))) := by
  have hd4 : s.drop (pos + 4) = sb ++ (nb ++ t) := by
    rw [← List.drop_drop, hdrop, List.drop_left' h1]
  have hd8 : s.drop (pos + 8) = nb ++ t := by
    rw [show pos + 8 = pos + 4 + 4 from rfl, ← List.drop_drop, hd4,
        List.drop_left' h2]
  have hlen := congrArg List.length hdrop
  rw [List.length_drop] at hlen
  simp only [List.length_append, h1, h2, h3] at hlen
  unfold DirectoryEntry.new
  rw [readBytes_pre s pos 4 ob (sb ++ (nb ++ t)) hpos hdrop h1,
      readBytes_pre s (pos + 4) 4 sb (nb ++ t) (by omega) hd4 h2,
      readBytes_pre s (pos + 8) 8 nb t (by omega) hd8 h3]

/-! ## Claims -/

/-- Claim C1 (code bug): `parse_unsigned` does NOT compute the little-endian
positional sum.  On the byte pair `[1, 0]` the 16-bit decode does consume
both bytes, but returns 256 — the accumulation `result + T::from(b).unwrap()
<< shift` parses as `(result + b) << shift` in Rust — whereas the
little-endian value of `[1, 0]` (computed by `leDecode`, the combination the
claim describes) is 1. -/
theorem c1_parse_unsigned_is_not_little_endian :
    parse_unsigned 2 [1, 0] = .ok (256, []) ∧ leDecode [1, 0] = 1 :=
  ⟨rfl, rfl⟩

/-- Claim C9 (code bug): materialising a lump whose directory entry has a
negative `size` PANICS (`vec![0; entry.size as usize]` requests more than
`isize::MAX` elements, a capacity-overflow panic) instead of returning
`CouldntReadLump`; an out-of-bounds non-negative size, or a negative
offset, does fail with `CouldntReadLump` as the claim says. -/
theorem c9_negative_size_panics :
    Lump.new [0, 0, 0] ⟨0, -1, []⟩ = .panicked
    ∧ Lump.new [0, 0, 0] ⟨0, 4, []⟩ = .error (.CouldntReadLump .unexpectedEof)
    ∧ Lump.new [0, 0, 0] ⟨-1, 2, []⟩ =
        .error (.CouldntReadLump .unexpectedEof) := by
  refine ⟨by decide, by decide, by decide⟩

/-- Claim C6: the top-level decode `from_bytes` succeeds exactly when the
record's field decodes succeed and consume the whole buffer; when the field
decodes succeed but unconsumed bytes remain it fails with `TrailingBytes`.
In particular, for a record decode `d` that consumes exactly the buffer
`buf` producing `t`, decoding `buf` succeeds with `t` and decoding `buf`
with one extra byte appended fails with `TrailingBytes`. -/
theorem c6_from_bytes_exact_consumption {α : Type}
    (d : List Nat → Except WadError (α × List Nat))
    (buf : List Nat) (t : α) (b : Nat)
    (hd : ∀ ext, d (buf ++ ext) = .ok (t, ext)) :
    (∀ (s : List Nat) (u : α), from_bytes d s = .ok u ↔ d s = .ok (u, []))
    ∧ from_bytes d buf = .ok t
    ∧ from_bytes d (buf ++ [b]) = .error .TrailingBytes := by
  refine ⟨?_, ?_, ?_⟩
  · intro s u
    unfold from_bytes
    cases hds : d s with
    | error e => simp
    | ok pr =>
      obtain ⟨v, rest⟩ := pr
      cases rest with
      | nil => simp
      | cons hh tl => simp
  · have h := hd []
    rw [List.append_nil] at h
    unfold from_bytes
    rw [h]
    rfl
  · unfold from_bytes
    rw [hd [b]]
    rfl

/-- Witness for C6: the two-u32 record shape consumes exactly the 8-byte
buffer `[0,0,0,1,0,0,0,2]`; with a ninth byte appended the top-level decode
fails with `TrailingBytes`. -/
theorem c6_from_bytes_exact_consumption_witness :
    (∀ (s : List Nat) (u : Nat × Nat),
        from_bytes twoU32 s = .ok u ↔ twoU32 s = .ok (u, []))
    ∧ from_bytes twoU32 [0, 0, 0, 1, 0, 0, 0, 2] = .ok (16777216, 33554432)
    ∧ from_bytes twoU32 ([0, 0, 0, 1, 0, 0, 0, 2] ++ [7]) =
        .error .TrailingBytes :=
  c6_from_bytes_exact_consumption twoU32 [0, 0, 0, 1, 0, 0, 0, 2]
    (16777216, 33554432) 7 (fun _ => rfl)

/-- Claim C5: for a source with at least 4 bytes, header parsing fails with
`InvalidMagicNumber` carrying exactly the first 4 bytes iff those bytes are
neither "IWAD" nor "PWAD"; on a magic match it proceeds to read `num_lumps`
(the signed little-endian i32 at bytes 4..8) and then `directory_offset`
(bytes 8..12), in that order. -/
theorem c5_magic_validation (s : List Nat) (h4 : 4 ≤ s.length) :
    (∀ bs, WadHeader.new s = .error (.InvalidMagicNumber bs) ↔
      (bs = s.take 4 ∧ s.take 4 ≠ magicIWAD ∧ s.take 4 ≠ magicPWAD))
    ∧ ((s.take 4 = magicIWAD ∨ s.take 4 = magicPWAD) →
        WadHeader.new s =
          if 12 ≤ s.length then
            .ok ⟨toI32 (leDecode ((s.drop 4).take 4)),
                 toI32 (leDecode ((s.drop 8).take 4))⟩
          else .error (.CouldntReadHeader .unexpectedEof)) := by
  have hr0 : readBytes s 0 4 = some (s.take 4) := by
    unfold readBytes
    rw [if_pos (by omega)]
    rw [List.drop_zero]
  have heval : WadHeader.new s =
      if s.take 4 = magicIWAD ∨ s.take 4 = magicPWAD then
        (match readBytes s 4 4 with
         | none => .error (.CouldntReadHeader .unexpectedEof)
         | some nb =>
           match readBytes s 8 4 with
           | none => .error (.CouldntReadHeader .unexpectedEof)
           | some db => .ok ⟨toI32 (leDecode nb), toI32 (leDecode db)⟩)
      else .error (.InvalidMagicNumber (s.take 4)) := by
    unfold WadHeader.new
    rw [hr0]
  rw [heval]
  by_cases hm : s.take 4 = magicIWAD ∨ s.take 4 = magicPWAD
  · rw [if_pos hm]
    by_cases h12 : 12 ≤ s.length
    · have hr4 : readBytes s 4 4 = some ((s.drop 4).take 4) := by
        unfold readBytes
        rw [if_pos (by omega)]
      have hr8 : readBytes s 8 4 = some ((s.drop 8).take 4) := by
        unfold readBytes
        rw [if_pos (by omega)]
      rw [hr4, hr8, if_pos h12]
      constructor
      · intro bs
        constructor
        · intro h
          exact absurd h (by simp)
        · rintro ⟨rfl, hI, hP⟩
          rcases hm with hm | hm
          · exact absurd hm hI
          · exact absurd hm hP
      · intro _
        rfl
    · rw [if_neg h12]
      by_cases h8 : 8 ≤ s.length
      · have hr4 : readBytes s 4 4 = some ((s.drop 4).take 4) := by
          unfold readBytes
          rw [if_pos (by omega)]
        have hr8 : readBytes s 8 4 = none := by
          unfold readBytes
          rw [if_neg (by omega)]
        rw [hr4, hr8]
        constructor
        · intro bs
          constructor
          · intro h
            exact absurd h (by simp)
          · rintro ⟨rfl, hI, hP⟩
            rcases hm with hm | hm
            · exact absurd hm hI
            · exact absurd hm hP
        · intro _
          rfl
      · have hr4 : readBytes s 4 4 = none := by
          unfold readBytes
          rw [if_neg (by omega)]
        rw [hr4]
        constructor
        · intro bs
          constructor
          · intro h
            exact absurd h (by simp)
          · rintro ⟨rfl, hI, hP⟩
            rcases hm with hm | hm
            · exact absurd hm hI
            · exact absurd hm hP
        · intro _
          rfl
  · rw [if_neg hm]
    push_neg at hm
    constructor
    · intro bs
      constructor
      · intro h
        refine ⟨?_, hm.1, hm.2⟩
        have := h
        simp only [WadError.InvalidMagicNumber.injEq, Except.error.injEq] at this
        exact this.symm
      · rintro ⟨rfl, _, _⟩
        rfl
    · intro h
      rcases h with h | h
      · exact absurd h hm.1
      · exact absurd h hm.2

/-- Witness for C5 at a concrete 12-byte IWAD header. -/
theorem c5_magic_validation_witness :
    WadHeader.new (magicIWAD ++ (le32 7 ++ le32 3)) = .ok ⟨7, 3⟩ := by
  have h := (c5_magic_validation (magicIWAD ++ (le32 7 ++ le32 3))
    (by decide)).2 (Or.inl (by decide))
  rw [h]
  decide

/-- Claim C4 (counterexample): on the 8-byte name field `"A\0B"` +
5 trailing NULs, the code decodes the name to `"AB"` — `DirectoryEntry::new`
removes EVERY NUL byte, interior ones included — while stripping only the
trailing NULs as the claim states leaves `"A\0B"`, which is itself valid
text; so the claim's description of the decoding is false. -/
theorem c4_counterexample :
    DirectoryEntry.new (le32 0 ++ (le32 0 ++ [65, 0, 66, 0, 0, 0, 0, 0])) 0 =
      .ok ⟨0, 0, [65, 66]⟩
    ∧ stripTrailingNulsSpec [65, 0, 66, 0, 0, 0, 0, 0] = [65, 0, 66]
    ∧ isValidUtf8 [65, 0, 66] = true
    ∧ [65, 66] ≠ stripTrailingNulsSpec [65, 0, 66, 0, 0, 0, 0, 0] :=
  ⟨rfl, rfl, rfl, by decide⟩

/-- Claim C4 (amended): for every 16-byte record whose fields read without
failure, the entry's name is obtained by removing EVERY NUL byte from the 8
raw name bytes and decoding the remainder as UTF-8; an invalid remainder
fails with `InvalidLumpName`, and `"MAP01\0\0\0"` decodes to `"MAP01"`. -/
theorem c4_name_decoding :
    (∀ (ob sb nb : List Nat), ob.length = 4 → sb.length = 4 →
      nb.length = 8 →
      DirectoryEntry.new (ob ++ (sb ++ nb)) 0 =
        if isValidUtf8 (nb.filter (fun b => b != 0)) then
          .ok ⟨toI32 (leDecode ob), toI32 (leDecode sb),
               nb.filter (fun b => b != 0)⟩
        else .error (.InvalidLumpName (nb.filter (fun b => b != 0))))
    ∧ DirectoryEntry.new
        (le32 0 ++ (le32 0 ++ [77, 65, 80, 48, 49, 0, 0, 0])) 0 =
        .ok ⟨0, 0, [77, 65, 80, 48, 49]⟩ := by
  constructor
  · intro ob sb nb h1 h2 h3
    exact directoryEntry_new_split (ob ++ (sb ++ nb)) 0 ob sb nb []
      (Nat.zero_le _) (by simp) h1 h2 h3
  · rfl

/-- Witness for C4 at a concrete record with offset 1, size 2 and name
field `"MAP01\0\0\0"`. -/
theorem c4_name_decoding_witness :
    DirectoryEntry.new
      ([1, 0, 0, 0] ++ ([2, 0, 0, 0] ++ [77, 65, 80, 48, 49, 0, 0, 0])) 0 =
      .ok ⟨1, 2, [77, 65, 80, 48, 49]⟩ := by
  have h := c4_name_decoding.1 [1, 0, 0, 0] [2, 0, 0, 0]
    [77, 65, 80, 48, 49, 0, 0, 0] rfl rfl rfl
  rw [h]
  decide

theorem writeEntries_long_name_not_ok (lumps : List Lump) :
    ∀ (offset : Nat), (∃ l ∈ lumps, 8 < l.name.length) →
      ∀ out, writeEntries lumps offset ≠ .ok out := by
  induction lumps with
  | nil =>
    intro offset h out
    obtain ⟨l, hl, _⟩ := h
    exact absurd hl (List.not_mem_nil l)
  | cons lump rest ih =>
    intro offset h out
    unfold writeEntries
    cases ho : usizeToI32 offset with
    | none => simp
    | some offI =>
      by_cases hn : 8 < lump.name.length
      · have hw : DirectoryEntry.write
            ⟨offI, usizeAsI32 lump.data.length, lump.name⟩ =
            .error (.CouldntWriteEntry .writeZero) := by
          unfold DirectoryEntry.write
          rw [if_pos hn]
        simp [hw]
      · have hrest : ∃ l ∈ rest, 8 < l.name.length := by
          obtain ⟨l, hl, hlen⟩ := h
          cases List.mem_cons.mp hl with
          | inl heq => rw [heq] at hlen; exact absurd hlen hn
          | inr hm => exact ⟨l, hm, hlen⟩
        cases hw : DirectoryEntry.write
            ⟨offI, usizeAsI32 lump.data.length, lump.name⟩ with
        | error e => simp [hw]
        | ok bytes =>
          cases hrec : writeEntries rest (offset + lump.data.length) with
          | panicked => simp [hw, hrec]
          | error e => simp [hw, hrec]
          | ok more =>
            exact absurd hrec (ih (offset + lump.data.length) hrest more)

/-- Claim C10: a lump name longer than 8 bytes makes the directory-entry
write fail with `CouldntWriteEntry` (the name cannot fit the fixed 8-byte
cursor), so `Wad::write` can never succeed with a silently truncated name;
a name of at most 8 bytes is emitted right-padded with NULs to exactly 8
bytes. -/
theorem c10_name_length_check :
    (∀ e : DirectoryEntry, 8 < e.name.length →
        DirectoryEntry.write e = .error (.CouldntWriteEntry .writeZero))
    ∧ (∀ e : DirectoryEntry, e.name.length ≤ 8 →
        DirectoryEntry.write e =
          .ok (le32 e.offset ++ le32 e.size ++
               (e.name ++ List.replicate (8 - e.name.length) 0)))
    ∧ (∀ w : Wad, (∃ l ∈ w.lumps, 8 < l.name.length) →
        ∀ out, Wad.write w ≠ .ok out) := by
  refine ⟨?_, ?_, ?_⟩
  · intro e h
    unfold DirectoryEntry.write
    rw [if_pos h]
  · intro e h
    unfold DirectoryEntry.write
    rw [if_neg (by omega)]
  · intro w h out
    have hne := writeEntries_long_name_not_ok w.lumps
      (12 + w.directory.length * 16) h
    unfold Wad.write
    cases hrec : writeEntries w.lumps (12 + w.directory.length * 16) with
    | panicked => simp
    | error e => simp
    | ok more => exact absurd hrec (hne more)

/-- Witness for C10: a 9-byte name fails, a 2-byte name is NUL-padded, and
`Wad::write` of an archive holding a 9-byte-named lump does not succeed. -/
theorem c10_name_length_check_witness :
    DirectoryEntry.write ⟨0, 0, [65, 65, 65, 65, 65, 65, 65, 65, 65]⟩ =
      .error (.CouldntWriteEntry .writeZero)
    ∧ DirectoryEntry.write ⟨3, 2, [65, 66]⟩ =
      .ok (le32 3 ++ le32 2 ++ ([65, 66] ++ List.replicate 6 0))
    ∧ Wad.write badNameWad ≠ .ok [] :=
  ⟨c10_name_length_check.1 ⟨0, 0, [65, 65, 65, 65, 65, 65, 65, 65, 65]⟩
      (by decide),
   c10_name_length_check.2.1 ⟨3, 2, [65, 66]⟩ (by decide),
   c10_name_length_check.2.2 badNameWad
     ⟨⟨[65, 65, 65, 65, 65, 65, 65, 65, 65], [1, 2]⟩, by decide⟩ []⟩

theorem buildIndexGo_append (l1 l2 : List DirectoryEntry) :
    ∀ (i : Nat) (m : List Nat → Option Nat),
      buildIndexGo (l1 ++ l2) i m =
        buildIndexGo l2 (i + l1.length) (buildIndexGo l1 i m) := by
  induction l1 with
  | nil => intro i m; simp [buildIndexGo]
  | cons e rest ih =>
    intro i m
    simp only [List.cons_append, buildIndexGo, List.append_eq]
    rw [ih]
    have harith : i + 1 + rest.length = i + (e :: rest).length := by
      simp
      omega
    rw [harith]

theorem buildIndex_snoc (l : List DirectoryEntry) (e : DirectoryEntry)
    (nm : List Nat) :
    buildIndex (l ++ [e]) nm =
      if nm = e.name then some l.length else buildIndex l nm := by
  unfold buildIndex
  rw [buildIndexGo_append]
  simp [buildIndexGo]

theorem buildIndex_last (entries : List DirectoryEntry) :
    ∀ (nm : List Nat) (i : Nat),
      buildIndex entries nm = some i ↔
        ((∃ e, entries[i]? = some e ∧ e.name = nm) ∧
         ∀ j, i < j → ∀ ej, entries[j]? = some ej → ej.name ≠ nm) := by
  induction entries using List.reverseRecOn with
  | nil =>
    intro nm i
    constructor
    · intro h
      exact absurd h (by simp [buildIndex, buildIndexGo])
    · rintro ⟨⟨e, he, _⟩, _⟩
      simp at he
  | append_singleton l e ih =>
    intro nm i
    rw [buildIndex_snoc]
    by_cases hnm : nm = e.name
    · rw [if_pos hnm]
      constructor
      · intro h
        have hi : i = l.length := by
          injection h with h2
          omega
        subst hi
        refine ⟨⟨e, ?_, hnm.symm⟩, ?_⟩
        · rw [List.getElem?_append_right (le_refl _)]
          simp
        · intro j hj ej hej
          rw [List.getElem?_eq_none (by simp; omega)] at hej
          exact absurd hej (by simp)
      · rintro ⟨⟨w, hw, hwname⟩, hmax⟩
        have hi1 : i < l.length + 1 := by
          by_contra hge
          rw [List.getElem?_eq_none (by simp; omega)] at hw
          exact absurd hw (by simp)
        rcases Nat.lt_or_ge i l.length with hlt | hge
        · exfalso
          refine hmax l.length hlt e ?_ hnm.symm
          rw [List.getElem?_append_right (le_refl _)]
          simp
        · have : i = l.length := by omega
          rw [this]
    · rw [if_neg hnm, ih nm i]
      constructor
      · rintro ⟨⟨w, hw, hwname⟩, hmax⟩
        have hi : i < l.length := by
          by_contra hge
          rw [List.getElem?_eq_none (by omega)] at hw
          exact absurd hw (by simp)
        refine ⟨⟨w, ?_, hwname⟩, ?_⟩
        · rw [List.getElem?_append_left hi]
          exact hw
        · intro j hj ej hej
          rcases Nat.lt_or_ge j l.length with hjl | hjr
          · rw [List.getElem?_append_left hjl] at hej
            exact hmax j hj ej hej
          · rcases Nat.lt_or_ge j (l.length + 1) with hj1 | hj2
            · have hjeq : j = l.length := by omega
              subst hjeq
              rw [List.getElem?_append_right (le_refl _)] at hej
              simp at hej
              intro hname
              rw [← hej] at hname
              exact hnm (hname ▸ rfl)
            · rw [List.getElem?_eq_none (by simp; omega)] at hej
              exact absurd hej (by simp)
      · rintro ⟨⟨w, hw, hwname⟩, hmax⟩
        have hi1 : i < l.length + 1 := by
          by_contra hge
          rw [List.getElem?_eq_none (by simp; omega)] at hw
          exact absurd hw (by simp)
        have hi : i < l.length := by
          rcases Nat.lt_or_ge i l.length with h | h
          · exact h
          · exfalso
            have hieq : i = l.length := by omega
            subst hieq
            rw [List.getElem?_append_right (le_refl _)] at hw
            simp at hw
            rw [← hw] at hwname
            exact hnm hwname.symm
        refine ⟨⟨w, ?_, hwname⟩, ?_⟩
        · rw [List.getElem?_append_left hi] at hw
          exact hw
        · intro j hj ej hej
          refine hmax j hj ej ?_
          rcases Nat.lt_or_ge j l.length with hjl | hjr
          · rw [List.getElem?_append_left hjl]
            exact hej
          · rw [List.getElem?_eq_none (by omega)] at hej
            exact absurd hej (by simp)

/-- Claim C7: looking a name up in the lump index returns the position of
the LAST directory entry with that name in directory order (a later
duplicate shadows every earlier one), while iteration still yields every
entry — shadowed ones included — in directory order; concretely, with the
name "A" at positions 0 and 3 of `dup4`, lookup returns 3 and iteration
yields all four entries including both "A" entries. -/
theorem c7_name_shadowing :
    (∀ (entries : List DirectoryEntry) (nm : List Nat) (i : Nat),
      buildIndex entries nm = some i ↔
        ((∃ e, entries[i]? = some e ∧ e.name = nm) ∧
         ∀ j, i < j → ∀ ej, entries[j]? = some ej → ej.name ≠ nm))
    ∧ buildIndex dup4 [65] = some 3
    ∧ Directory.iter dup4 = dup4
    ∧ dup4[0]? = some ⟨10, 1, [65]⟩
    ∧ dup4[3]? = some ⟨40, 4, [65]⟩ := by
  refine ⟨fun entries nm i => buildIndex_last entries nm i, ?_, rfl, rfl, rfl⟩
  decide

/-- Witness for C7: the general characterisation instantiated at `dup4`
and the duplicated name "A". -/
theorem c7_name_shadowing_witness :
    buildIndex dup4 [65] = some 3 ↔
      ((∃ e, dup4[3]? = some e ∧ e.name = [65]) ∧
       ∀ j, 3 < j → ∀ ej, dup4[j]? = some ej → ej.name ≠ [65]) :=
  c7_name_shadowing.1 dup4 [65] 3

theorem directoryEntryNew_error_shape (s : List Nat) (pos : Nat)
    (e : WadError) (h : DirectoryEntry.new s pos = .error e) :
    e = .CouldntReadEntry .unexpectedEof ∨
      ∃ nb, e = .InvalidLumpName nb := by
  unfold DirectoryEntry.new at h
  cases h1 : readBytes s pos 4 with
  | none =>
    rw [h1] at h
    simp at h
    exact Or.inl h.symm
  | some ob =>
    rw [h1] at h
    cases h2 : readBytes s (pos + 4) 4 with
    | none =>
      rw [h2] at h
      simp at h
      exact Or.inl h.symm
    | some sb =>
      rw [h2] at h
      cases h3 : readBytes s (pos + 8) 8 with
      | none =>
        rw [h3] at h
        simp at h
        exact Or.inl h.symm
      | some nb =>
        rw [h3] at h
        simp only [] at h
        split at h
        · exact absurd h (by simp)
        · simp at h
          exact Or.inr ⟨nb.filter (fun b => b != 0), h.symm⟩

theorem parseEntries_error_shape (s : List Nat) :
    ∀ (count pos : Nat) (e : WadError),
      parseEntries s pos count = .error e →
      e = .CouldntReadEntry .unexpectedEof ∨
        ∃ nb, e = .InvalidLumpName nb := by
  intro count
  induction count with
  | zero =>
    intro pos e h
    exact absurd h (by simp [parseEntries])
  | succ n ih =>
    intro pos e h
    unfold parseEntries at h
    cases hde : DirectoryEntry.new s pos with
    | error e2 =>
      rw [hde] at h
      simp at h
      exact h ▸ directoryEntryNew_error_shape s pos e2 hde
    | ok entry =>
      rw [hde] at h
      cases hrec : parseEntries s (pos + 16) n with
      | error e2 =>
        rw [hrec] at h
        simp at h
        exact h ▸ ih (pos + 16) e2 hrec
      | ok rest =>
        rw [hrec] at h
        exact absurd h (by simp)

/-- Claim C8: every I/O failure in the directory-parsing phase (the phase
runs from the single seek to `directory_offset` — which cannot fail for a
byte source — through the decoding of all `count` entries) surfaces as
`CouldntReadEntry` wrapping the io cause (the only other failure the phase
can produce is `InvalidLumpName`, which is not an I/O failure), and any
failure of the phase aborts `Wad::new` with that very error, so no partial
directory is ever returned. -/
theorem c8_directory_phase_errors :
    (∀ (s : List Nat) (count pos : Nat) (e : WadError),
      parseEntries s pos count = .error e →
      e = .CouldntReadEntry .unexpectedEof ∨
        ∃ nb, e = .InvalidLumpName nb)
    ∧ (∀ (s : List Nat) (hdr : WadHeader) (e : WadError),
      WadHeader.new s = .ok hdr →
      parseEntries s (i32AsU64 hdr.directory_offset) hdr.num_lumps.toNat =
        .error e →
      Wad.openBytes s = .error e) := by
  constructor
  · exact fun s count pos e h => parseEntries_error_shape s count pos e h
  · intro s hdr e hh hp
    unfold Wad.openBytes
    rw [hh]
    simp only [hp]

/-- Witness for C8: a 13-byte source whose header promises one entry but
whose directory region is too short; the whole open aborts with
`CouldntReadEntry`. -/
theorem c8_directory_phase_errors_witness :
    Wad.openBytes (magicPWAD ++ (le32 1 ++ (le32 12 ++ [0]))) =
      .error (.CouldntReadEntry .unexpectedEof) :=
  c8_directory_phase_errors.2 (magicPWAD ++ (le32 1 ++ (le32 12 ++ [0])))
    ⟨1, 12⟩ (.CouldntReadEntry .unexpectedEof) (by decide) (by decide)

theorem le32_usizeAsI32 (n : Nat) :
    le32 (usizeAsI32 n) = le32 (Int.ofNat n) := by
  have hmod : usizeAsI32 n % 4294967296 = Int.ofNat n % 4294967296 := by
    unfold usizeAsI32 toI32 toSigned
    norm_num
    split <;> omega
  unfold le32
  rw [hmod]

theorem writeEntries_ok (lumps : List Lump) :
    ∀ (offset : Nat), (∀ l ∈ lumps, l.name.length ≤ 8) →
      offset + (lumps.map (fun l => l.data.length)).sum ≤ 2147483647 →
      writeEntries lumps offset = .ok (expectedDirBytes lumps offset) := by
  induction lumps with
  | nil => intro offset _ _; rfl
  | cons lump rest ih =>
    intro offset hnames hfit
    rw [List.map_cons, List.sum_cons] at hfit
    unfold writeEntries
    have hoff : usizeToI32 offset = some (Int.ofNat offset) := by
      unfold usizeToI32
      rw [if_pos (by omega)]
    have hw : DirectoryEntry.write
        ⟨Int.ofNat offset, usizeAsI32 lump.data.length, lump.name⟩ =
        .ok (le32 (Int.ofNat offset) ++ le32 (Int.ofNat lump.data.length) ++
             (lump.name ++ List.replicate (8 - lump.name.length) 0)) := by
      unfold DirectoryEntry.write
      rw [if_neg (by
        show ¬8 < lump.name.length
        have := hnames lump (List.mem_cons_self lump rest)
        omega)]
      rw [le32_usizeAsI32]
    have hrec := ih (offset + lump.data.length)
      (fun l hl => hnames l (List.mem_cons_of_mem lump hl)) (by omega)
    simp only [hoff, hw, hrec]
    rfl

/-- Claim C3 (amended): for every archive whose lump names are at most 8
bytes and whose recomputed offsets all fit in an `i32` (the claim as stated
over every lump list is refuted by `c3_counterexample` below: a 9-byte name
makes write fail instead of emitting the stream), write emits the 12-byte
header — magic "PWAD", `num_lumps = n`, `directory_offset = 12` — then one
16-byte record per lump whose offsets run from `12 + 16 * n`, incremented by
each preceding lump's byte length, then the payloads concatenated in order
with no padding; for sizes [10, 0, 7] the written offsets are [60, 70, 70]
and the output is 77 bytes long. -/
theorem c3_write_layout :
    (∀ w : Wad, w.directory.length = w.lumps.length →
      (∀ l ∈ w.lumps, l.name.length ≤ 8) →
      12 + w.lumps.length * 16 +
          (w.lumps.map (fun l => l.data.length)).sum ≤ 2147483647 →
      Wad.write w = .ok
        (magicPWAD ++ le32 (Int.ofNat w.lumps.length) ++ le32 12 ++
         expectedDirBytes w.lumps (12 + w.lumps.length * 16) ++
         (w.lumps.map (fun l => l.data)).flatten))
    ∧ Wad.write wad107 = .ok out107
    ∧ out107.length = 77
    ∧ readBytes out107 12 4 = some (le32 60)
    ∧ readBytes out107 28 4 = some (le32 70)
    ∧ readBytes out107 44 4 = some (le32 70) := by
  refine ⟨?_, by decide, by decide, by decide, by decide, by decide⟩
  intro w hdir hnames hfit
  have hWE := writeEntries_ok w.lumps (12 + w.lumps.length * 16) hnames
    (by omega)
  unfold Wad.write
  rw [hdir, hWE, le32_usizeAsI32]

/-- Claim C3 (counterexample): an archive with a single lump whose name is
9 bytes long makes `Wad::write` fail with `CouldntWriteEntry` instead of
emitting any stream, so the unconditional claim is false. -/
theorem c3_counterexample :
    Wad.write badNameWad = .error (.CouldntWriteEntry .writeZero) := by
  decide

/-- Witness for C3 at the concrete archive with lump sizes [10, 0, 7]. -/
theorem c3_write_layout_witness :
    Wad.write wad107 = .ok
      (magicPWAD ++ le32 (Int.ofNat wad107.lumps.length) ++ le32 12 ++
       expectedDirBytes wad107.lumps (12 + wad107.lumps.length * 16) ++
       (wad107.lumps.map (fun l => l.data)).flatten) :=
  c3_write_layout.1 wad107 (by decide) (by decide) (by decide)

theorem flatten_replicate_succ {α : Type} (n : Nat) (l : List α) :
    (List.replicate (n + 1) l).flatten = l ++ (List.replicate n l).flatten := by
  rw [List.replicate_succ, List.flatten_cons]

theorem flatten_replicate_length {α : Type} (n : Nat) (l : List α) :
    (List.replicate n l).flatten.length = n * l.length := by
  induction n with
  | zero => simp
  | succ m ih =>
    rw [flatten_replicate_succ, List.length_append, ih]
    ring

theorem le32_length (x : Int) : (le32 x).length = 4 := rfl

theorem bigSrc_length : bigSrc.length = bigLen := by
  unfold bigSrc
  rw [List.length_append, List.length_append, List.length_append,
      flatten_replicate_length]
  rw [le32_length, le32_length]
  show 4 + (4 + (4 + bigN * 16)) = bigLen
  unfold bigN bigLen
  norm_num

theorem wadHeaderNew_eval (s : List Nat) (magic : List Nat)
    (hr0 : readBytes s 0 4 = some magic) :
    WadHeader.new s =
      if magic = magicIWAD ∨ magic = magicPWAD then
        (match readBytes s 4 4 with
         | none => .error (.CouldntReadHeader .unexpectedEof)
         | some nb =>
           match readBytes s 8 4 with
           | none => .error (.CouldntReadHeader .unexpectedEof)
           | some db => .ok ⟨toI32 (leDecode nb), toI32 (leDecode db)⟩)
      else .error (.InvalidMagicNumber magic) := by
  unfold WadHeader.new
  rw [hr0]

theorem openBytes_ok (s : List Nat) (hdr : WadHeader)
    (dir : List DirectoryEntry) (lumps : List Lump)
    (hh : WadHeader.new s = .ok hdr)
    (hd : parseEntries s (i32AsU64 hdr.directory_offset)
        hdr.num_lumps.toNat = .ok dir)
    (hl : readLumps s dir = .ok lumps) :
    Wad.openBytes s = .ok ⟨dir, lumps⟩ := by
  unfold Wad.openBytes
  rw [hh]
  simp only [hd, hl]

theorem wadWrite_panics (w : Wad)
    (hp : writeEntries w.lumps (12 + w.directory.length * 16) = .panicked) :
    Wad.write w = .panicked := by
  unfold Wad.write
  rw [hp]

theorem parseEntries_bigRec (s : List Nat) :
    ∀ (k pos : Nat), pos ≤ s.length →
      s.drop pos = (List.replicate k bigRec).flatten →
      parseEntries s pos k = .ok (List.replicate k bigEntry) := by
  intro k
  induction k with
  | zero => intro pos _ _; rfl
  | succ m ih =>
    intro pos hpos hdrop
    rw [flatten_replicate_succ] at hdrop
    have hdlen := congrArg List.length hdrop
    rw [List.length_drop, List.length_append] at hdlen
    have hrl : bigRec.length = 16 := rfl
    have hde : DirectoryEntry.new s pos = .ok bigEntry := by
      have h := directoryEntry_new_split s pos (le32 0)
        (le32 (Int.ofNat bigLen)) bigName
        ((List.replicate m bigRec).flatten) hpos
        (by rw [hdrop]; simp [bigRec, List.append_assoc]) rfl rfl rfl
      rw [h, if_pos (by decide)]
      decide
    have hd16 : s.drop (pos + 16) = (List.replicate m bigRec).flatten := by
      rw [← List.drop_drop, hdrop, List.drop_left' hrl]
    have hrec := ih (pos + 16) (by rw [hrl] at hdlen; omega) hd16
    unfold parseEntries
    simp only [hde, hrec]
    rw [List.replicate_succ]

theorem lumpNew_big : Lump.new bigSrc bigEntry = .ok bigLump := by
  have hn : i32AsU64 bigEntry.size = bigLen := by decide
  have hoff : i32AsU64 bigEntry.offset = 0 := by decide
  have hread : readBytes bigSrc 0 bigLen = some bigSrc := by
    unfold readBytes
    rw [if_pos (by rw [bigSrc_length]; omega)]
    rw [List.drop_zero, List.take_of_length_le (by rw [bigSrc_length])]
  unfold Lump.new
  rw [hn, hoff, if_neg (by unfold bigLen; omega), hread]
  rfl

theorem readLumps_replicate (s : List Nat) (e : DirectoryEntry) (l : Lump)
    (h : Lump.new s e = .ok l) :
    ∀ n, readLumps s (List.replicate n e) = .ok (List.replicate n l) := by
  intro n
  induction n with
  | zero => rfl
  | succ m ih =>
    rw [List.replicate_succ, List.replicate_succ]
    unfold readLumps
    simp only [h, ih]

theorem writeEntries_big_panics :
    ∀ (m offset : Nat), 1 ≤ m →
      2147483648 ≤ offset + (m - 1) * bigLen →
      writeEntries (List.replicate m bigLump) offset = .panicked := by
  intro m
  induction m with
  | zero => intro offset h1 _; exact absurd h1 (by omega)
  | succ k ih =>
    intro offset _ hbound
    rw [List.replicate_succ]
    unfold writeEntries
    by_cases hoff : offset ≤ 2147483647
    · have hsome : usizeToI32 offset = some (Int.ofNat offset) := by
        unfold usizeToI32
        rw [if_pos hoff]
      have hk : 1 ≤ k := by
        by_contra hk0
        have hk00 : k = 0 := by omega
        rw [hk00] at hbound
        simp at hbound
        omega
      have hw : DirectoryEntry.write
          ⟨Int.ofNat offset, usizeAsI32 bigLump.data.length, bigLump.name⟩ =
          .ok (le32 (Int.ofNat offset) ++
               le32 (Int.ofNat bigLump.data.length) ++
               (bigLump.name ++
                List.replicate (8 - bigLump.name.length) 0)) := by
        unfold DirectoryEntry.write
        rw [if_neg (by show ¬8 < bigLump.name.length; decide)]
        rw [le32_usizeAsI32]
      have hlen : bigLump.data.length = bigLen := bigSrc_length
      have hrec := ih (offset + bigLump.data.length) hk (by
        rw [hlen]
        have hb2 : 2147483648 ≤ offset + k * bigLen := by simpa using hbound
        have hsm : k * bigLen = bigLen + (k - 1) * bigLen := by
          cases k with
          | zero => exact absurd hk (by omega)
          | succ kk => rw [Nat.succ_mul, Nat.succ_sub_one]; omega
        omega)
      simp only [hsome, hw, hrec]
    · have hnone : usizeToI32 offset = none := by
        unfold usizeToI32
        rw [if_neg hoff]
      simp only [hnone]

/-- Claim C2 (code bug): the round trip is broken by an offset-overflow
panic in `Wad::write`.  `bigSrc` is a valid 185372-byte archive that opens
successfully — its 11585 entries all describe the whole source as their
lump, which is legal since lump ranges may overlap — but re-serialising it
computes a running offset of 11585 * 185372 = 2147534620 > i32::MAX for the
last directory record, so `offset.try_into::<i32>().unwrap()` PANICS
instead of writing a stream that could be re-opened. -/
theorem c2_write_after_open_panics :
    Wad.openBytes bigSrc = .ok bigWad ∧ Wad.write bigWad = .panicked := by
  constructor
  · have hr0 : readBytes bigSrc 0 4 = some magicPWAD :=
      readBytes_pre bigSrc 0 4 magicPWAD
        (le32 (Int.ofNat bigN) ++ (le32 12 ++ (List.replicate bigN bigRec).flatten))
        (Nat.zero_le _) (by rw [List.drop_zero]; rfl) rfl
    have hhdr : WadHeader.new bigSrc = .ok ⟨Int.ofNat bigN, 12⟩ := by
      rw [wadHeaderNew_eval bigSrc magicPWAD hr0, if_pos (Or.inr rfl)]
      have hd4 : bigSrc.drop 4 = le32 (Int.ofNat bigN) ++
          (le32 12 ++ (List.replicate bigN bigRec).flatten) := by
        unfold bigSrc
        rw [List.drop_left' (show magicPWAD.length = 4 from rfl)]
      have hr4 : readBytes bigSrc 4 4 = some (le32 (Int.ofNat bigN)) :=
        readBytes_pre bigSrc 4 4 (le32 (Int.ofNat bigN))
          (le32 12 ++ (List.replicate bigN bigRec).flatten)
          (by rw [bigSrc_length]; unfold bigLen; omega) hd4 rfl
      have hd8 : bigSrc.drop 8 = le32 12 ++
          (List.replicate bigN bigRec).flatten := by
        rw [show (8 : Nat) = 4 + 4 from rfl, ← List.drop_drop, hd4,
            List.drop_left' (le32_length (Int.ofNat bigN))]
      have hr8 : readBytes bigSrc 8 4 = some (le32 12) :=
        readBytes_pre bigSrc 8 4 (le32 12)
          ((List.replicate bigN bigRec).flatten)
          (by rw [bigSrc_length]; unfold bigLen; omega) hd8 rfl
      rw [hr4, hr8]
      decide
    have hd12 : bigSrc.drop 12 = (List.replicate bigN bigRec).flatten := by
      have hsplit : bigSrc =
          (magicPWAD ++ (le32 (Int.ofNat bigN) ++ le32 12)) ++
          (List.replicate bigN bigRec).flatten := by
        unfold bigSrc
        simp [List.append_assoc]
      rw [hsplit, List.drop_left' (by rfl)]
    have hdir : parseEntries bigSrc 12 bigN =
        .ok (List.replicate bigN bigEntry) :=
      parseEntries_bigRec bigSrc bigN 12
        (by rw [bigSrc_length]; unfold bigLen; omega) hd12
    have hlumps := readLumps_replicate bigSrc bigEntry bigLump lumpNew_big bigN
    have hdir2 : parseEntries bigSrc
        (i32AsU64 ((⟨Int.ofNat bigN, 12⟩ : WadHeader).directory_offset))
        ((⟨Int.ofNat bigN, 12⟩ : WadHeader).num_lumps.toNat) =
        .ok (List.replicate bigN bigEntry) := by
      have h12u : i32AsU64
          ((⟨Int.ofNat bigN, 12⟩ : WadHeader).directory_offset) = 12 := by
        decide
      have hcnt : ((⟨Int.ofNat bigN, 12⟩ : WadHeader).num_lumps.toNat) =
          bigN := rfl
      rw [h12u, hcnt]
      exact hdir
    exact openBytes_ok bigSrc ⟨Int.ofNat bigN, 12⟩
      (List.replicate bigN bigEntry) (List.replicate bigN bigLump)
      hhdr hdir2 hlumps
  · have hlen : bigWad.directory.length = bigN := by
      rw [show bigWad.directory = List.replicate bigN bigEntry from rfl,
          List.length_replicate]
    apply wadWrite_panics
    rw [show bigWad.lumps = List.replicate bigN bigLump from rfl, hlen]
    exact writeEntries_big_panics bigN (12 + bigN * 16)
      (by unfold bigN; omega)
      (by unfold bigN bigLen; norm_num)

end Smoosh
